import Mathlib

/-!
# Verification of the mocketd host runtime (oboard/mocketd)

Shallow embedding of the two source files `src/main.rs` and `src/nodehttp.rs`:
the JSON message codec used by `send_event` and the `h_se` host function,
the UTF-16 / big-endian-byte wire encoding, the event dispatcher
(`handle_receive`), the response registry (`RESPONSE_MAP` / `NEXT_ID`) and the
raw HTTP server pieces (`handle_connection`, `Response::write_head`,
`Response::end`).

Strings are modelled as `List Char` (Rust `String` is a sequence of Unicode
scalar values, exactly what `Char` ranges over).  JSON numbers are modelled as
arbitrary-precision integers: `serde_json` additionally supports `f64`
payloads, whose shortest-round-trip float formatting is floating-point
behaviour outside this embedding; every other part of the codec is modelled
at full fidelity.
-/

namespace Mocketd

/-! ## JSON value model (serde_json::Value)

`serde_json::Value` is `Null | Bool | Number | String | Array | Object`.
Arrays and objects are modelled by the mutually inductive `JArr` / `JObj`
spines (isomorphic to `List Json` / `List (List Char × Json)`) so that all
functions below are plain mutual structural recursions, which the kernel can
evaluate. -/

mutual

inductive Json where
  | null : Json
  | bool : Bool → Json
  | num : Int → Json
  | str : List Char → Json
  | arr : JArr → Json
  | obj : JObj → Json

inductive JArr where
  | nil : JArr
  | cons : Json → JArr → JArr

inductive JObj where
  | nil : JObj
  | cons : List Char → Json → JObj → JObj

end

/-! ## Serialization (serde_json::to_string, as called by `send_event` and
the `http.end` object-body branch) -/

/-- Lower-case hex digit, as used by serde_json's `\u00XX` control-character
escapes. -/
def hexDigitL (n : Nat) : Char :=
  if n < 10 then Char.ofNat (48 + n) else Char.ofNat (87 + n)

/-- serde_json's string-character escaping: `"` and `\` get a backslash,
control characters below 0x20 use the short escapes `\b \t \n \f \r` when
available and `\u00XX` otherwise; all other characters are emitted raw. -/
def escapeChar (c : Char) : List Char :=
  if c = '"' then ['\\', '"']
  else if c = '\\' then ['\\', '\\']
  else if c = '\x08' then ['\\', 'b']
  else if c = '\t' then ['\\', 't']
  else if c = '\n' then ['\\', 'n']
  else if c = '\x0C' then ['\\', 'f']
  else if c = '\r' then ['\\', 'r']
  else if c.toNat < 0x20 then
    ['\\', 'u', '0', '0', hexDigitL (c.toNat / 16), hexDigitL (c.toNat % 16)]
  else [c]

/-- A rendered JSON string: quote, escaped characters, quote. -/
def renderString (s : List Char) : List Char :=
  '"' :: s.flatMap escapeChar ++ ['"']

/-- Decimal digit character. -/
def decChar (n : Nat) : Char := Char.ofNat (48 + n)

/-- Most-significant-first decimal digit accumulator (the standard integer
`Display`); `fuel` bounds the recursion and is always supplied ≥ the number
being printed. -/
def digitsAux : Nat → Nat → List Char → List Char
  | 0, _, acc => acc
  | fuel + 1, n, acc =>
    if n = 0 then acc else digitsAux fuel (n / 10) (decChar (n % 10) :: acc)

/-- Decimal rendering of a natural number (Rust `{}` for unsigned values). -/
def natToDecimal (n : Nat) : List Char :=
  if n = 0 then ['0'] else digitsAux (n + 1) n []

/-- Decimal rendering of an integer (Rust `{}` for signed values,
which is what serde_json emits for integer `Number`s). -/
def intToDecimal (n : Int) : List Char :=
  if n < 0 then '-' :: natToDecimal n.natAbs else natToDecimal n.toNat

mutual

/-- Compact JSON serialization, as `serde_json::to_string` produces it:
no whitespace, `,` between items, `:` after keys. -/
def Json.render : Json → List Char
  | .null => 'n' :: ['u', 'l', 'l']
  | .bool true => 't' :: ['r', 'u', 'e']
  | .bool false => 'f' :: ['a', 'l', 's', 'e']
  | .num n => intToDecimal n
  | .str s => renderString s
  | .arr items => '[' :: JArr.renderItems items ++ [']']
  | .obj fields => '{' :: JObj.renderFields fields ++ ['}']

def JArr.renderItems : JArr → List Char
  | .nil => []
  | .cons v tail => v.render ++ JArr.renderRest tail

def JArr.renderRest : JArr → List Char
  | .nil => []
  | .cons v tail => ',' :: v.render ++ JArr.renderRest tail

def JObj.renderFields : JObj → List Char
  | .nil => []
  | .cons k v tail => renderString k ++ ':' :: v.render ++ JObj.renderRest tail

def JObj.renderRest : JObj → List Char
  | .nil => []
  | .cons k v tail =>
    ',' :: renderString k ++ ':' :: v.render ++ JObj.renderRest tail

end

/-! ## Parsing (serde_json::from_str::<Value>, as called by `h_se`)

A recursive-descent parser over the character list.  Nesting depth is driven
by a fuel argument (structural recursion the kernel can evaluate); the
top-level entry point supplies more fuel than any parse can consume.
Leniencies relative to serde_json, none of which is reachable from rendered
output: leading zeros in numbers are accepted, and a number followed by
`.`/`e` is cut at the integer part instead of continuing as a float. -/

/-- The whitespace serde_json skips between tokens. -/
def isJsonWs (c : Char) : Bool :=
  c = ' ' || c = '\n' || c = '\t' || c = '\r'

def skipWs : List Char → List Char
  | [] => []
  | c :: rest => if isJsonWs c then skipWs rest else c :: rest

def isDig (c : Char) : Bool := 48 ≤ c.toNat && c.toNat ≤ 57

/-- Value of one hex digit (both cases accepted, as in serde's `\u` escapes). -/
def hexVal (c : Char) : Option Nat :=
  if 48 ≤ c.toNat && c.toNat ≤ 57 then some (c.toNat - 48)
  else if 97 ≤ c.toNat && c.toNat ≤ 102 then some (c.toNat - 87)
  else if 65 ≤ c.toNat && c.toNat ≤ 70 then some (c.toNat - 55)
  else none

/-- Greedy decimal-digit run, returning the accumulated value and the rest. -/
def parseDigits : List Char → Nat → Nat × List Char
  | [], acc => (acc, [])
  | c :: rest, acc =>
    if isDig c then parseDigits rest (acc * 10 + (c.toNat - 48))
    else (acc, c :: rest)

/-- The value of four hex digits, serde's `\uXXXX` escape payload. -/
def hex4 (a b c d : Char) : Option Nat :=
  match hexVal a, hexVal b, hexVal c, hexVal d with
  | some x, some y, some z, some w => some (((x * 16 + y) * 16 + z) * 16 + w)
  | _, _, _, _ => none

/-- The character produced by one of serde's single-letter escapes. -/
def namedEscape (e : Char) : Option Char :=
  if e = '"' then some '"'
  else if e = '\\' then some '\\'
  else if e = '/' then some '/'
  else if e = 'b' then some '\x08'
  else if e = 'f' then some '\x0C'
  else if e = 'n' then some '\n'
  else if e = 'r' then some '\r'
  else if e = 't' then some '\t'
  else none

/-- A low-surrogate escape `\uXXXX` (expected right after a high surrogate):
the six characters must be a backslash, a `u` and four hex digits whose value
is in `[0xDC00, 0xE000)`. -/
def decodeLowSurrogate (b1 b2 e1 e2 e3 e4 : Char) : Option Nat :=
  if b1 = '\\' ∧ b2 = 'u' then
    match hex4 e1 e2 e3 e4 with
    | some m => if 0xDC00 ≤ m ∧ m < 0xE000 then some m else none
    | none => none
  else none

/-- Combining a surrogate pair into one scalar value, as serde does. -/
def combineSurrogates (n m : Nat) : Char :=
  Char.ofNat (0x10000 + (n - 0xD800) * 0x400 + (m - 0xDC00))

/-- One string element starting at the non-quote character `c`: a plain
character, a named backslash escape, or a `\uXXXX` escape (with surrogate-pair
combination); raw control characters and lone surrogates are rejected, as
serde does. -/
def parseCharTok (c : Char) (rest : List Char) : Option (Char × List Char) :=
  if c = '\\' then
    match rest with
    | [] => none
    | e :: rest1 =>
      if e = 'u' then
        match rest1 with
        | d1 :: d2 :: d3 :: d4 :: rest2 =>
          match hex4 d1 d2 d3 d4 with
          | some n =>
            if n < 0xD800 ∨ 0xDFFF < n then some (Char.ofNat n, rest2)
            else if n < 0xDC00 then
              match rest2 with
              | b1 :: b2 :: e1 :: e2 :: e3 :: e4 :: rest3 =>
                match decodeLowSurrogate b1 b2 e1 e2 e3 e4 with
                | some m => some (combineSurrogates n m, rest3)
                | none => none
              | _ => none
            else none
          | none => none
        | _ => none
      else (namedEscape e).map (fun ch => (ch, rest1))
  else if c.toNat < 0x20 then none
  else some (c, rest)

/-- Body of a JSON string after the opening quote: string elements until the
closing quote.  The fuel argument is an embedding artifact driving the
recursion; one unit is spent per string element, and every caller supplies
more fuel than the input length, so it never cuts a parse short. -/
def parseStringBody : Nat → List Char → Option (List Char × List Char)
  | 0, _ => none
  | fuel + 1, s =>
    match s with
    | [] => none
    | c :: rest =>
      if c = '"' then some ([], rest)
      else
        match parseCharTok c rest with
        | some (ch, rest2) =>
          (parseStringBody fuel rest2).map (fun p => (ch :: p.1, p.2))
        | none => none

/-- Checks that the keyword tail `kw` is the prefix of the input and returns
the remainder (serde's `parse_ident`). -/
def keywordTail : List Char → List Char → Option (List Char)
  | [], r => some r
  | k :: kw, r =>
    match r with
    | [] => none
    | c :: r2 => if c = k then keywordTail kw r2 else none

/-- The number branch of `parse_value`: an optional minus sign, then at least
one decimal digit (the integer grammar; float continuations are outside this
embedding). -/
def parseNumber (neg : Bool) (s : List Char) : Option (Json × List Char) :=
  match s with
  | [] => none
  | c :: _ =>
    if isDig c then
      let p := parseDigits s 0
      some (.num (if neg then -(p.1 : Int) else (p.1 : Int)), p.2)
    else none

mutual

/-- One JSON value (serde's `parse_value`): skip whitespace, then branch on
the first character. -/
def parseVal : Nat → List Char → Option (Json × List Char)
  | 0, _ => none
  | fuel + 1, s =>
    match skipWs s with
    | [] => none
    | c :: r =>
      if c = 'n' then
        (keywordTail ['u', 'l', 'l'] r).map (fun r2 => (.null, r2))
      else if c = 't' then
        (keywordTail ['r', 'u', 'e'] r).map (fun r2 => (.bool true, r2))
      else if c = 'f' then
        (keywordTail ['a', 'l', 's', 'e'] r).map (fun r2 => (.bool false, r2))
      else if c = '"' then
        (parseStringBody (r.length + 1) r).map (fun p => (.str p.1, p.2))
      else if c = '[' then
        match skipWs r with
        | [] => none
        | c2 :: r2 =>
          if c2 = ']' then some (.arr .nil, r2)
          else (parseItems fuel r).map (fun p => (.arr p.1, p.2))
      else if c = '{' then
        match skipWs r with
        | [] => none
        | c2 :: r2 =>
          if c2 = '}' then some (.obj .nil, r2)
          else (parseFields fuel r).map (fun p => (.obj p.1, p.2))
      else if c = '-' then parseNumber true r
      else if isDig c then parseNumber false (c :: r)
      else none

/-- The items of a non-empty array after the opening `[`. -/
def parseItems : Nat → List Char → Option (JArr × List Char)
  | 0, _ => none
  | fuel + 1, s =>
    match parseVal fuel s with
    | some (v, r1) =>
      match skipWs r1 with
      | [] => none
      | c :: r2 =>
        if c = ',' then (parseItems fuel r2).map (fun p => (.cons v p.1, p.2))
        else if c = ']' then some (.cons v .nil, r2)
        else none
    | none => none

/-- The fields of a non-empty object after the opening `{`. -/
def parseFields : Nat → List Char → Option (JObj × List Char)
  | 0, _ => none
  | fuel + 1, s =>
    match skipWs s with
    | [] => none
    | c0 :: r =>
      if c0 = '"' then
        match parseStringBody (r.length + 1) r with
        | some (k, r1) =>
          match skipWs r1 with
          | [] => none
          | c1 :: r2 =>
            if c1 = ':' then
              match parseVal fuel r2 with
              | some (v, r3) =>
                match skipWs r3 with
                | [] => none
                | c2 :: r4 =>
                  if c2 = ',' then
                    (parseFields fuel r4).map (fun p => (.cons k v p.1, p.2))
                  else if c2 = '}' then some (.cons k v .nil, r4)
                  else none
              | none => none
            else none
        | none => none
      else none

end

/-- Model of `serde_json::from_str::<Value>`: a complete value with nothing but
whitespace around it.  The fuel `s.length + 1` exceeds what any parse can
consume, so it is not a restriction. -/
def from_str (s : List Char) : Option Json :=
  match parseVal (s.length + 1) s with
  | some (v, rest) => if skipWs rest = [] then some v else none
  | none => none

/-! ## Round-trip proof, layer 1: characters, whitespace, digits -/

theorem char_toNat_ofNat {n : Nat} (h : n.isValidChar) : (Char.ofNat n).toNat = n := by
  simp only [Char.ofNat, h, dite_true, Char.ofNatAux, Char.toNat, UInt32.toNat,
    BitVec.toNat_ofNatLt]

theorem char_valid_nat (c : Char) :
    c.toNat < 0xD800 ∨ (0xDFFF < c.toNat ∧ c.toNat < 0x110000) := c.valid

theorem char_ne_of_toNat_ne {c d : Char} (h : c.toNat ≠ d.toNat) : c ≠ d := by
  intro he
  exact h (he ▸ rfl)

theorem skipWs_cons_of_not_ws {c : Char} (h : isJsonWs c = false) (r : List Char) :
    skipWs (c :: r) = c :: r := by
  simp [skipWs, h]

theorem isJsonWs_false_of_toNat {c : Char}
    (h : c.toNat ≠ 32 ∧ c.toNat ≠ 10 ∧ c.toNat ≠ 9 ∧ c.toNat ≠ 13) :
    isJsonWs c = false := by
  have h32 : ¬ (c = ' ') := char_ne_of_toNat_ne (by simpa using h.1)
  have h10 : ¬ (c = '\n') := char_ne_of_toNat_ne (by simpa using h.2.1)
  have h9 : ¬ (c = '\t') := char_ne_of_toNat_ne (by simpa using h.2.2.1)
  have h13 : ¬ (c = '\r') := char_ne_of_toNat_ne (by simpa using h.2.2.2)
  simp [isJsonWs, h32, h10, h9, h13]

theorem isDig_toNat {c : Char} (h : isDig c = true) : 48 ≤ c.toNat ∧ c.toNat ≤ 57 := by
  simpa [isDig] using h

theorem isDig_not_ws {c : Char} (h : isDig c = true) : isJsonWs c = false := by
  have := isDig_toNat h
  exact isJsonWs_false_of_toNat (by omega)

theorem decChar_toNat {k : Nat} (h : k < 10) : (decChar k).toNat = 48 + k :=
  char_toNat_ofNat (Or.inl (by omega))

theorem isDig_decChar {k : Nat} (h : k < 10) : isDig (decChar k) = true := by
  simp [isDig, decChar_toNat h]
  omega

/-! ## Round-trip proof, layer 2: decimal numbers -/

/-- One step of decimal accumulation, as `parseDigits` performs it. -/
def dstep (a : Nat) (c : Char) : Nat := a * 10 + (c.toNat - 48)

/-- The context right of a rendered number never starts with a digit: that is
all `parseDigits` needs in order to stop exactly at the number's end. -/
def boundaryOk : List Char → Bool
  | [] => true
  | c :: _ => !(isDig c)

theorem parseDigits_spec :
    ∀ (ds : List Char) (acc : Nat) (rest : List Char),
      (∀ c ∈ ds, isDig c = true) → boundaryOk rest = true →
      parseDigits (ds ++ rest) acc = (ds.foldl dstep acc, rest) := by
  intro ds
  induction ds with
  | nil =>
    intro acc rest _ hb
    cases rest with
    | nil => simp [parseDigits]
    | cons c r =>
      have hc : isDig c = false := by simpa [boundaryOk] using hb
      simp [parseDigits, hc]
  | cons c ds ih =>
    intro acc rest hds hb
    have hc : isDig c = true := hds c (List.mem_cons_self ..)
    simp only [List.cons_append, parseDigits, hc, if_pos, List.foldl_cons]
    exact ih _ rest (fun d hd => hds d (List.mem_cons_of_mem _ hd)) hb

theorem digitsAux_spec :
    ∀ (fuel n : Nat) (acc : List Char), n ≤ fuel →
      ∃ ds, digitsAux fuel n acc = ds ++ acc ∧ (∀ c ∈ ds, isDig c = true) ∧
        ∀ a, ds.foldl dstep a = if n = 0 then a else a * 10 ^ ds.length + n := by
  intro fuel
  induction fuel with
  | zero =>
    intro n acc hn
    refine ⟨[], by simp [digitsAux], by simp, ?_⟩
    intro a
    have : n = 0 := by omega
    simp [this]
  | succ fuel ih =>
    intro n acc hn
    by_cases h0 : n = 0
    · exact ⟨[], by simp [digitsAux, h0], by simp, fun a => by simp [h0]⟩
    · have hten : (1 : Nat) < 10 := by norm_num
      have hlt : n / 10 < n := Nat.div_lt_self (Nat.pos_of_ne_zero h0) hten
      have hdiv : n / 10 ≤ fuel := by omega
      have hm : n % 10 < 10 := Nat.mod_lt n (by omega)
      obtain ⟨ds', heq, hdig, hfold⟩ := ih (n / 10) (decChar (n % 10) :: acc) hdiv
      refine ⟨ds' ++ [decChar (n % 10)], ?_, ?_, ?_⟩
      · simp [digitsAux, h0, heq]
      · intro c hc
        rcases List.mem_append.mp hc with h | h
        · exact hdig c h
        · have : c = decChar (n % 10) := by simpa using h
          subst this
          exact isDig_decChar hm
      · intro a
        rw [List.foldl_append, hfold a]
        by_cases hq : n / 10 = 0
        · have hds : ds' = [] := by
            have hz : digitsAux fuel (n / 10) (decChar (n % 10) :: acc) =
                decChar (n % 10) :: acc := by
              rw [hq]
              cases fuel <;> simp [digitsAux]
            have hlen := congrArg List.length (hz ▸ heq)
            simp at hlen
            exact hlen
          subst hds
          simp only [hq, List.nil_append, List.foldl_cons, List.foldl_nil,
            dstep, decChar_toNat hm, if_neg h0, List.length_cons, List.length_nil,
            pow_one, if_true, eq_self_iff_true]
          omega
        · simp only [if_neg hq, List.foldl_cons, List.foldl_nil, dstep,
            decChar_toNat hm, if_neg h0, List.length_append, List.length_cons,
            List.length_nil, pow_succ]
          rw [← Nat.mul_assoc]
          generalize a * 10 ^ ds'.length = Q
          omega

theorem natToDecimal_spec (n : Nat) :
    ∃ ds, natToDecimal n = ds ∧ ds ≠ [] ∧ (∀ c ∈ ds, isDig c = true) ∧
      ∀ rest, boundaryOk rest = true → parseDigits (ds ++ rest) 0 = (n, rest) := by
  by_cases h0 : n = 0
  · refine ⟨['0'], by simp [natToDecimal, h0], by simp, by simp [isDig], ?_⟩
    intro rest hb
    rw [parseDigits_spec ['0'] 0 rest (by simp [isDig]) hb]
    simp [dstep, h0]
  · obtain ⟨ds, heq, hdig, hfold⟩ := digitsAux_spec (n + 1) n [] (by omega)
    have hds : natToDecimal n = ds := by
      simp [natToDecimal, h0]
      simpa using heq
    have hne : ds ≠ [] := by
      intro hnil
      have := hfold 0
      rw [hnil] at this
      simp [if_neg h0] at this
      omega
    refine ⟨ds, hds, hne, hdig, ?_⟩
    intro rest hb
    rw [parseDigits_spec ds 0 rest hdig hb, hfold 0]
    simp [if_neg h0]

/-- Every character of a rendered natural number is a decimal digit. -/
theorem natToDecimal_digits (n : Nat) : ∀ c ∈ natToDecimal n, isDig c = true := by
  obtain ⟨ds, hds, _, hdig, _⟩ := natToDecimal_spec n
  rw [hds]
  exact hdig

/-- A digit character is not one of the characters `parse_value` branches on
before reaching the number case, and is not whitespace. -/
theorem isDig_not_special {c : Char} (h : isDig c = true) :
    ¬(c = 'n') ∧ ¬(c = 't') ∧ ¬(c = 'f') ∧ ¬(c = '"') ∧ ¬(c = '[') ∧
      ¬(c = '{') ∧ ¬(c = '-') := by
  have hd := isDig_toNat h
  refine ⟨char_ne_of_toNat_ne ?_, char_ne_of_toNat_ne ?_, char_ne_of_toNat_ne ?_,
    char_ne_of_toNat_ne ?_, char_ne_of_toNat_ne ?_, char_ne_of_toNat_ne ?_,
    char_ne_of_toNat_ne ?_⟩ <;> simp <;> omega

/-! ## Round-trip proof, layer 3: string escapes -/

theorem hexVal_hexDigitL {k : Nat} (h : k < 16) : hexVal (hexDigitL k) = some k := by
  interval_cases k <;> rfl

theorem parseStringBody_escape :
    ∀ (s : List Char) (fuel : Nat) (rest : List Char), s.length + 1 ≤ fuel →
      parseStringBody fuel (s.flatMap escapeChar ++ '"' :: rest) = some (s, rest) := by
  intro s
  induction s with
  | nil =>
    intro fuel rest hf
    cases fuel with
    | zero => omega
    | succ f => simp [parseStringBody]
  | cons c s ih =>
    intro fuel rest hf
    cases fuel with
    | zero => simp at hf
    | succ f =>
      have hfs : s.length + 1 ≤ f := by
        simp at hf
        omega
      have ihf := ih f rest hfs
      simp only [List.flatMap_cons, List.append_assoc]
      by_cases h1 : c = '"'
      · subst h1
        simp [parseStringBody, parseCharTok, namedEscape, escapeChar, ihf]
      · by_cases h2 : c = '\\'
        · subst h2
          simp [parseStringBody, parseCharTok, namedEscape, escapeChar, ihf]
        · by_cases h3 : c = '\x08'
          · subst h3
            simp [parseStringBody, parseCharTok, namedEscape, escapeChar, ihf]
          · by_cases h4 : c = '\t'
            · subst h4
              simp [parseStringBody, parseCharTok, namedEscape, escapeChar, ihf]
            · by_cases h5 : c = '\n'
              · subst h5
                simp [parseStringBody, parseCharTok, namedEscape, escapeChar, ihf]
              · by_cases h6 : c = '\x0C'
                · subst h6
                  simp [parseStringBody, parseCharTok, namedEscape, escapeChar, ihf]
                · by_cases h7 : c = '\r'
                  · subst h7
                    simp [parseStringBody, parseCharTok, namedEscape, escapeChar, ihf]
                  · by_cases h8 : c.toNat < 0x20
                    · -- the `\u00XX` escape
                      have hesc : escapeChar c = ['\\', 'u', '0', '0',
                          hexDigitL (c.toNat / 16), hexDigitL (c.toNat % 16)] := by
                        simp [escapeChar, h1, h2, h3, h4, h5, h6, h7, h8]
                      have hhi : hexVal (hexDigitL (c.toNat / 16)) = some (c.toNat / 16) :=
                        hexVal_hexDigitL (by omega)
                      have hlo : hexVal (hexDigitL (c.toNat % 16)) = some (c.toNat % 16) :=
                        hexVal_hexDigitL (Nat.mod_lt _ (by omega))
                      have h00 : hexVal '0' = some 0 := rfl
                      have hhex : hex4 '0' '0' (hexDigitL (c.toNat / 16))
                          (hexDigitL (c.toNat % 16)) = some c.toNat := by
                        simp [hex4, h00, hhi, hlo]
                        omega
                      have hq : ¬ ('\\' = '"') := by decide
                      rw [hesc]
                      simp only [List.cons_append, List.nil_append]
                      rw [show ∀ (X : List Char), parseStringBody (f + 1) ('\\' :: X) =
                          match parseCharTok '\\' X with
                          | some (ch, rest2) =>
                            (parseStringBody f rest2).map (fun p => (ch :: p.1, p.2))
                          | none => none from fun X => by simp [parseStringBody, hq]]
                      simp only [parseCharTok, Char.reduceEq, reduceIte, hhex]
                      rw [if_pos (Or.inl (show c.toNat < 0xD800 by omega))]
                      simp [ihf, Char.ofNat_toNat]
                    · -- plain character
                      have hesc : escapeChar c = [c] := by
                        simp [escapeChar, h1, h2, h3, h4, h5, h6, h7, h8]
                      rw [hesc]
                      simp only [List.cons_append, List.nil_append]
                      rw [show parseStringBody (f + 1)
                            (c :: (s.flatMap escapeChar ++ '"' :: rest)) =
                          match parseCharTok c (s.flatMap escapeChar ++ '"' :: rest) with
                          | some (ch, rest2) =>
                            (parseStringBody f rest2).map (fun p => (ch :: p.1, p.2))
                          | none => none from by simp [parseStringBody, h1]]
                      rw [show parseCharTok c (s.flatMap escapeChar ++ '"' :: rest) =
                          some (c, s.flatMap escapeChar ++ '"' :: rest) from by
                        simp [parseCharTok, h2, h8]]
                      simp [ihf]

/-- Each escaped character expands to at least one character, so the escaped
text is at least as long as the original. -/
theorem length_le_length_flatMap_escape (s : List Char) :
    s.length ≤ (s.flatMap escapeChar).length := by
  induction s with
  | nil => simp
  | cons c s ih =>
    have hpos : 1 ≤ (escapeChar c).length := by
      simp only [escapeChar]
      split_ifs <;> simp
    simp only [List.flatMap_cons, List.length_cons, List.length_append]
    omega

/-! ## Round-trip proof, layer 4: fuel accounting and head characters -/

mutual

/-- Parser fuel consumed by a value: one unit per `parseVal` plus one per
`parseItems`/`parseFields` frame. -/
def Json.fuelSize : Json → Nat
  | .null | .bool _ | .num _ | .str _ => 1
  | .arr items => items.fuelSize + 1
  | .obj fields => fields.fuelSize + 1

def JArr.fuelSize : JArr → Nat
  | .nil => 0
  | .cons v tail => v.fuelSize + tail.fuelSize + 1

def JObj.fuelSize : JObj → Nat
  | .nil => 0
  | .cons _ v tail => v.fuelSize + tail.fuelSize + 1

end

theorem one_le_fuelSize (v : Json) : 1 ≤ v.fuelSize := by
  cases v <;> simp [Json.fuelSize]

/-- The first character of any rendered value: never whitespace and never a
closing delimiter or separator, so the parser's branch on it is decided. -/
theorem render_head (v : Json) :
    ∃ c cs, v.render = c :: cs ∧ isJsonWs c = false ∧ ¬(c = ']') ∧ ¬(c = '}') := by
  match v with
  | .null => refine ⟨'n', _, rfl, ?_, ?_, ?_⟩ <;> decide
  | .bool true => refine ⟨'t', _, rfl, ?_, ?_, ?_⟩ <;> decide
  | .bool false => refine ⟨'f', _, rfl, ?_, ?_, ?_⟩ <;> decide
  | .str s => refine ⟨'"', _, rfl, ?_, ?_, ?_⟩ <;> decide
  | .arr items => refine ⟨'[', _, rfl, ?_, ?_, ?_⟩ <;> decide
  | .obj fields => refine ⟨'{', _, rfl, ?_, ?_, ?_⟩ <;> decide
  | .num n =>
    by_cases hn : n < 0
    · refine ⟨'-', natToDecimal n.natAbs, ?_, by decide, by decide, by decide⟩
      simp [Json.render, intToDecimal, hn]
    · obtain ⟨ds, hds, hne, hdig, _⟩ := natToDecimal_spec n.toNat
      cases ds with
      | nil => exact absurd rfl hne
      | cons d ds' =>
        have hd : isDig d = true := hdig d (List.mem_cons_self ..)
        have := isDig_toNat hd
        refine ⟨d, ds', ?_, isDig_not_ws hd, char_ne_of_toNat_ne (by simp; omega),
          char_ne_of_toNat_ne (by simp; omega)⟩
        simp [Json.render, intToDecimal, hn, hds]

theorem boundaryOk_arr_rest (t : JArr) (rest : List Char) :
    boundaryOk (JArr.renderRest t ++ ']' :: rest) = true := by
  cases t <;> simp [JArr.renderRest, boundaryOk, isDig]

theorem boundaryOk_obj_rest (t : JObj) (rest : List Char) :
    boundaryOk (JObj.renderRest t ++ '}' :: rest) = true := by
  cases t <;> simp [JObj.renderRest, boundaryOk, isDig, renderString]

/-! ## Round-trip proof, layer 5: `parseVal` branch-entry lemmas -/

theorem pvNull (fuel : Nat) (X : List Char) :
    parseVal (fuel + 1) ('n' :: 'u' :: 'l' :: 'l' :: X) = some (.null, X) := by
  simp [parseVal, keywordTail, skipWs, isJsonWs]

theorem pvTrue (fuel : Nat) (X : List Char) :
    parseVal (fuel + 1) ('t' :: 'r' :: 'u' :: 'e' :: X) = some (.bool true, X) := by
  simp [parseVal, keywordTail, skipWs, isJsonWs]

theorem pvFalse (fuel : Nat) (X : List Char) :
    parseVal (fuel + 1) ('f' :: 'a' :: 'l' :: 's' :: 'e' :: X) = some (.bool false, X) := by
  simp [parseVal, keywordTail, skipWs, isJsonWs]

theorem pvStr (fuel : Nat) (X : List Char) :
    parseVal (fuel + 1) ('"' :: X) =
      (parseStringBody (X.length + 1) X).map (fun p => (.str p.1, p.2)) := by
  simp [parseVal, skipWs, isJsonWs]

theorem pvArrNil (fuel : Nat) (X : List Char) :
    parseVal (fuel + 1) ('[' :: ']' :: X) = some (.arr .nil, X) := by
  simp [parseVal, skipWs, isJsonWs]

theorem pvObjNil (fuel : Nat) (X : List Char) :
    parseVal (fuel + 1) ('{' :: '}' :: X) = some (.obj .nil, X) := by
  simp [parseVal, skipWs, isJsonWs]

theorem pvArrCons (fuel : Nat) (r : List Char) (c : Char) (cs : List Char)
    (hr : r = c :: cs) (hws : isJsonWs c = false) (hne : ¬(c = ']')) :
    parseVal (fuel + 1) ('[' :: r) =
      (parseItems fuel r).map (fun p => (.arr p.1, p.2)) := by
  subst hr
  have h0 : skipWs ('[' :: c :: cs) = '[' :: c :: cs :=
    skipWs_cons_of_not_ws (by decide) _
  have h1 : skipWs (c :: cs) = c :: cs := skipWs_cons_of_not_ws hws _
  simp [parseVal, h0, h1, hne]

theorem pvObjCons (fuel : Nat) (r : List Char) (c : Char) (cs : List Char)
    (hr : r = c :: cs) (hws : isJsonWs c = false) (hne : ¬(c = '}')) :
    parseVal (fuel + 1) ('{' :: r) =
      (parseFields fuel r).map (fun p => (.obj p.1, p.2)) := by
  subst hr
  have h0 : skipWs ('{' :: c :: cs) = '{' :: c :: cs :=
    skipWs_cons_of_not_ws (by decide) _
  have h1 : skipWs (c :: cs) = c :: cs := skipWs_cons_of_not_ws hws _
  simp [parseVal, h0, h1, hne]

theorem pvNeg (fuel : Nat) (X : List Char) :
    parseVal (fuel + 1) ('-' :: X) = parseNumber true X := by
  simp [parseVal, skipWs, isJsonWs]

theorem pvDig (fuel : Nat) (c : Char) (h : isDig c = true) (X : List Char) :
    parseVal (fuel + 1) (c :: X) = parseNumber false (c :: X) := by
  obtain ⟨h1, h2, h3, h4, h5, h6, h7⟩ := isDig_not_special h
  simp [parseVal, skipWs_cons_of_not_ws (isDig_not_ws h), h1, h2, h3, h4, h5, h6, h7, h]

/-- Parsing a rendered integer with the `parse_value` number branches. -/
theorem parseVal_intToDecimal (fuel : Nat) (n : Int) (rest : List Char)
    (hb : boundaryOk rest = true) :
    parseVal (fuel + 1) (intToDecimal n ++ rest) = some (.num n, rest) := by
  by_cases hn : n < 0
  · obtain ⟨ds, hds, hne, hdig, hparse⟩ := natToDecimal_spec n.natAbs
    have hni : intToDecimal n = '-' :: natToDecimal n.natAbs := by
      simp [intToDecimal, hn]
    rw [hni, hds]
    cases ds with
    | nil => exact absurd rfl hne
    | cons d ds' =>
      have hd : isDig d = true := hdig d (List.mem_cons_self ..)
      rw [List.cons_append, pvNeg, List.cons_append]
      simp only [parseNumber, hd, if_true]
      rw [← List.cons_append, hparse rest hb]
      simp only [Option.some.injEq, Prod.mk.injEq, Json.num.injEq, and_true]
      omega
  · obtain ⟨ds, hds, hne, hdig, hparse⟩ := natToDecimal_spec n.toNat
    have hni : intToDecimal n = natToDecimal n.toNat := by
      simp [intToDecimal, hn]
    rw [hni, hds]
    cases ds with
    | nil => exact absurd rfl hne
    | cons d ds' =>
      have hd : isDig d = true := hdig d (List.mem_cons_self ..)
      rw [List.cons_append, pvDig fuel d hd]
      simp only [parseNumber, hd, if_true]
      rw [← List.cons_append, hparse rest hb]
      simp only [Option.some.injEq, Prod.mk.injEq, Json.num.injEq, and_true]
      exact Int.toNat_of_nonneg (by omega)

/-! ## Round-trip proof, layer 6: the main induction

One simultaneous induction on fuel for `parseVal` / `parseItems` /
`parseFields` against the corresponding renderers. -/

theorem parse_render_aux :
    ∀ fuel : Nat,
      (∀ (v : Json) (rest : List Char), v.fuelSize ≤ fuel → boundaryOk rest = true →
        parseVal fuel (v.render ++ rest) = some (v, rest)) ∧
      (∀ (v : Json) (tail : JArr) (rest : List Char),
        JArr.fuelSize (.cons v tail) ≤ fuel →
        parseItems fuel (v.render ++ (JArr.renderRest tail ++ ']' :: rest)) =
          some (.cons v tail, rest)) ∧
      (∀ (ks : List Char) (v : Json) (tail : JObj) (rest : List Char),
        JObj.fuelSize (.cons ks v tail) ≤ fuel →
        parseFields fuel ('"' :: (ks.flatMap escapeChar ++ ('"' :: (':' ::
            (v.render ++ (JObj.renderRest tail ++ '}' :: rest)))))) =
          some (.cons ks v tail, rest)) := by
  intro fuel
  induction fuel with
  | zero =>
    refine ⟨?_, ?_, ?_⟩
    · intro v rest h _
      have := one_le_fuelSize v
      omega
    · intro v tail rest h
      simp [JArr.fuelSize] at h
    · intro ks v tail rest h
      simp [JObj.fuelSize] at h
  | succ fuel ih =>
    obtain ⟨ihV, ihI, ihF⟩ := ih
    refine ⟨?_, ?_, ?_⟩
    · -- parseVal on a rendered value
      intro v rest h hb
      cases v with
      | null =>
        simp only [Json.render, List.cons_append, List.nil_append]
        exact pvNull fuel rest
      | bool b =>
        cases b
        · simp only [Json.render, List.cons_append, List.nil_append]
          exact pvFalse fuel rest
        · simp only [Json.render, List.cons_append, List.nil_append]
          exact pvTrue fuel rest
      | num n =>
        simp only [Json.render]
        exact parseVal_intToDecimal fuel n rest hb
      | str s =>
        simp only [Json.render, renderString, List.cons_append, List.append_assoc,
          List.singleton_append, List.nil_append]
        rw [pvStr]
        rw [parseStringBody_escape s _ rest (by
          simp only [List.length_append, List.length_cons]
          have := length_le_length_flatMap_escape s
          omega)]
        rfl
      | arr items =>
        cases items with
        | nil =>
          simp only [Json.render, JArr.renderItems, List.cons_append, List.nil_append]
          exact pvArrNil fuel rest
        | cons v2 t =>
          have hfs : JArr.fuelSize (.cons v2 t) ≤ fuel := by
            simp only [Json.fuelSize] at h
            omega
          obtain ⟨c, cs, hr, hws, hne1, hne2⟩ := render_head v2
          simp only [Json.render, JArr.renderItems, List.cons_append,
            List.append_assoc, List.singleton_append, List.nil_append]
          rw [pvArrCons fuel _ c (cs ++ (JArr.renderRest t ++ ']' :: rest))
            (by rw [hr]; simp) hws hne1]
          rw [ihI v2 t rest hfs]
          rfl
      | obj fields =>
        cases fields with
        | nil =>
          simp only [Json.render, JObj.renderFields, List.cons_append, List.nil_append]
          exact pvObjNil fuel rest
        | cons k v2 t =>
          have hfs : JObj.fuelSize (.cons k v2 t) ≤ fuel := by
            simp only [Json.fuelSize] at h
            omega
          simp only [Json.render, JObj.renderFields, renderString, List.cons_append,
            List.append_assoc, List.singleton_append, List.nil_append]
          rw [pvObjCons fuel _ '"'
            (k.flatMap escapeChar ++ ('"' :: (':' ::
              (v2.render ++ (JObj.renderRest t ++ '}' :: rest))))) rfl
            (by decide) (by decide)]
          rw [ihF k v2 t rest hfs]
          rfl
    · -- parseItems on rendered items
      intro v tail rest h
      have hv : v.fuelSize ≤ fuel := by
        simp only [JArr.fuelSize] at h
        omega
      simp only [parseItems]
      rw [ihV v (JArr.renderRest tail ++ ']' :: rest) hv (boundaryOk_arr_rest tail rest)]
      cases tail with
      | nil =>
        simp only [JArr.renderRest, List.nil_append]
        rw [skipWs_cons_of_not_ws (by decide)]
        simp [Char.reduceEq, reduceIte]
      | cons w t2 =>
        have hw : JArr.fuelSize (.cons w t2) ≤ fuel := by
          have := one_le_fuelSize v
          simp only [JArr.fuelSize] at h ⊢
          omega
        simp only [JArr.renderRest, List.cons_append, List.append_assoc]
        rw [skipWs_cons_of_not_ws (by decide)]
        simp only [Char.reduceEq, reduceIte]
        rw [ihI w t2 rest hw]
        rfl
    · -- parseFields on rendered fields
      intro ks v tail rest h
      have hv : v.fuelSize ≤ fuel := by
        simp only [JObj.fuelSize] at h
        omega
      simp only [parseFields]
      rw [skipWs_cons_of_not_ws (show isJsonWs '"' = false from by decide)]
      simp only [Char.reduceEq, reduceIte]
      rw [parseStringBody_escape ks _ (':' ::
          (v.render ++ (JObj.renderRest tail ++ '}' :: rest))) (by
        simp only [List.length_append, List.length_cons]
        have := length_le_length_flatMap_escape ks
        omega)]
      simp only [skipWs_cons_of_not_ws (show isJsonWs ':' = false from by decide),
        Char.reduceEq, reduceIte]
      rw [ihV v (JObj.renderRest tail ++ '}' :: rest) hv (boundaryOk_obj_rest tail rest)]
      cases tail with
      | nil =>
        simp [JObj.renderRest, List.nil_append,
          skipWs_cons_of_not_ws (show isJsonWs '}' = false from by decide)]
      | cons k2 v2 t2 =>
        have hw : JObj.fuelSize (.cons k2 v2 t2) ≤ fuel := by
          have := one_le_fuelSize v
          simp only [JObj.fuelSize] at h ⊢
          omega
        simp only [JObj.renderRest, renderString, List.cons_append,
          List.append_assoc, List.singleton_append, List.nil_append,
          skipWs_cons_of_not_ws (show isJsonWs ',' = false from by decide),
          Char.reduceEq, reduceIte]
        rw [ihF k2 v2 t2 rest hw]
        rfl

/-! ## Round-trip proof, layer 7: the top-level entry point -/

theorem intToDecimal_length_pos (n : Int) : 1 ≤ (intToDecimal n).length := by
  by_cases hn : n < 0
  · simp [intToDecimal, hn]
  · obtain ⟨ds, hds, hne, _, _⟩ := natToDecimal_spec n.toNat
    simp only [intToDecimal, hn, if_false]
    rw [hds]
    cases ds with
    | nil => exact absurd rfl hne
    | cons d ds' => simp

mutual

theorem Json.fuelSize_le_render_length : ∀ v : Json, v.fuelSize ≤ v.render.length
  | .null => by simp [Json.fuelSize, Json.render]
  | .bool true => by simp [Json.fuelSize, Json.render]
  | .bool false => by simp [Json.fuelSize, Json.render]
  | .num n => by
    simp only [Json.fuelSize, Json.render]
    have := intToDecimal_length_pos n
    omega
  | .str s => by simp [Json.fuelSize, Json.render, renderString]
  | .arr .nil => by
    simp [Json.fuelSize, JArr.fuelSize, Json.render, JArr.renderItems]
  | .arr (.cons v t) => by
    have h1 := Json.fuelSize_le_render_length v
    have h2 := jarrFuelSize_le_renderRest_length t
    simp only [Json.fuelSize, JArr.fuelSize, Json.render, JArr.renderItems,
      List.length_cons, List.length_append, List.length_nil]
    omega
  | .obj .nil => by
    simp [Json.fuelSize, JObj.fuelSize, Json.render, JObj.renderFields]
  | .obj (.cons k v t) => by
    have h1 := Json.fuelSize_le_render_length v
    have h2 := jobjFuelSize_le_renderRest_length t
    simp only [Json.fuelSize, JObj.fuelSize, Json.render, JObj.renderFields,
      List.length_cons, List.length_append, List.length_nil]
    omega

theorem jarrFuelSize_le_renderRest_length :
    ∀ t : JArr, t.fuelSize ≤ t.renderRest.length
  | .nil => by simp [JArr.fuelSize, JArr.renderRest]
  | .cons v t => by
    have h1 := Json.fuelSize_le_render_length v
    have h2 := jarrFuelSize_le_renderRest_length t
    simp only [JArr.fuelSize, JArr.renderRest, List.length_cons, List.length_append]
    omega

theorem jobjFuelSize_le_renderRest_length :
    ∀ t : JObj, t.fuelSize ≤ t.renderRest.length
  | .nil => by simp [JObj.fuelSize, JObj.renderRest]
  | .cons k v t => by
    have h1 := Json.fuelSize_le_render_length v
    have h2 := jobjFuelSize_le_renderRest_length t
    simp only [JObj.fuelSize, JObj.renderRest, List.length_cons, List.length_append]
    omega

end

/-- The codec round trip for a single rendered value. -/
theorem from_str_render (v : Json) : from_str v.render = some v := by
  have hfs : v.fuelSize ≤ v.render.length + 1 :=
    le_trans (Json.fuelSize_le_render_length v) (by omega)
  have h := (parse_render_aux (v.render.length + 1)).1 v [] hfs (by simp [boundaryOk])
  rw [List.append_nil] at h
  unfold from_str
  rw [h]
  simp [skipWs]

/-! ## Round-trip proof, layer 8: rendered JSON contains no NUL character

`h_se` strips NUL characters (`.replace("\0", "")`) before parsing; on
rendered JSON this is the identity because serde escapes every control
character. -/

theorem char_ne_null {c : Char} (h : c.toNat ≠ 0) : c ≠ '\x00' :=
  char_ne_of_toNat_ne (by simpa using h)

theorem hexDigitL_ne_null {k : Nat} (h : k < 16) : hexDigitL k ≠ '\x00' := by
  unfold hexDigitL
  split_ifs with h1
  · exact char_ne_null (by rw [char_toNat_ofNat (Or.inl (by omega))]; omega)
  · exact char_ne_null (by rw [char_toNat_ofNat (Or.inl (by omega))]; omega)

theorem escapeChar_no_null (c : Char) : ∀ d ∈ escapeChar c, d ≠ '\x00' := by
  intro d hd
  simp only [escapeChar] at hd
  split_ifs at hd with h1 h2 h3 h4 h5 h6 h7 h8 <;> fin_cases hd
  all_goals first
    | decide
    | exact hexDigitL_ne_null (by omega)
    | exact hexDigitL_ne_null (Nat.mod_lt _ (by omega))
    | exact char_ne_null (by omega)

theorem isDig_ne_null {c : Char} (h : isDig c = true) : c ≠ '\x00' := by
  have := isDig_toNat h
  exact char_ne_null (by omega)

theorem renderString_no_null (s : List Char) : ∀ d ∈ renderString s, d ≠ '\x00' := by
  intro d hd
  simp only [renderString, List.mem_cons, List.mem_append, List.mem_flatMap,
    List.mem_singleton] at hd
  casesm* _ ∨ _, Exists _, _ ∧ _
  all_goals first
    | (subst d; decide)
    | exact escapeChar_no_null _ d (by assumption)
    | simp_all

theorem intToDecimal_no_null (n : Int) : ∀ d ∈ intToDecimal n, d ≠ '\x00' := by
  intro d hd
  by_cases hn : n < 0
  · simp only [intToDecimal, if_pos hn, List.mem_cons] at hd
    rcases hd with h | h
    · subst h; decide
    · exact isDig_ne_null (natToDecimal_digits _ d h)
  · simp only [intToDecimal, if_neg hn] at hd
    exact isDig_ne_null (natToDecimal_digits _ d hd)

mutual

theorem Json.render_no_null : ∀ (v : Json), ∀ c ∈ v.render, c ≠ '\x00'
  | .null => by decide
  | .bool true => by decide
  | .bool false => by decide
  | .num n => intToDecimal_no_null n
  | .str s => renderString_no_null s
  | .arr .nil => by decide
  | .arr (.cons v t) => by
    intro c hc
    have hv := Json.render_no_null v
    have ht := jarrRenderRest_no_null t
    simp only [Json.render, JArr.renderItems, List.mem_cons, List.mem_append,
      List.mem_singleton] at hc
    casesm* _ ∨ _
    all_goals first
      | (subst c; decide)
      | exact hv c (by assumption)
      | exact ht c (by assumption)
      | simp_all
  | .obj .nil => by decide
  | .obj (.cons k v t) => by
    intro c hc
    have hv := Json.render_no_null v
    have ht := jobjRenderRest_no_null t
    have hk := renderString_no_null k
    simp only [Json.render, JObj.renderFields, List.mem_cons, List.mem_append,
      List.mem_singleton] at hc
    casesm* _ ∨ _
    all_goals first
      | (subst c; decide)
      | exact hv c (by assumption)
      | exact ht c (by assumption)
      | simp_all
      | exact hk c (by assumption)
      | simp_all

theorem jarrRenderRest_no_null : ∀ (t : JArr), ∀ c ∈ t.renderRest, c ≠ '\x00'
  | .nil => by simp [JArr.renderRest]
  | .cons v t => by
    intro c hc
    have hv := Json.render_no_null v
    have ht := jarrRenderRest_no_null t
    simp only [JArr.renderRest, List.mem_cons, List.mem_append] at hc
    casesm* _ ∨ _
    all_goals first
      | (subst c; decide)
      | exact hv c (by assumption)
      | exact ht c (by assumption)
      | simp_all

theorem jobjRenderRest_no_null : ∀ (t : JObj), ∀ c ∈ t.renderRest, c ≠ '\x00'
  | .nil => by simp [JObj.renderRest]
  | .cons k v t => by
    intro c hc
    have hv := Json.render_no_null v
    have ht := jobjRenderRest_no_null t
    have hk := renderString_no_null k
    simp only [JObj.renderRest, List.mem_cons, List.mem_append] at hc
    casesm* _ ∨ _
    all_goals first
      | (subst c; decide)
      | exact hv c (by assumption)
      | exact ht c (by assumption)
      | simp_all
      | exact hk c (by assumption)
      | simp_all

end

/-! ## The wire layer (send_event, main.rs lines 150-173, and h_se)

`send_event` serializes `[event_type, data]`, encodes the text as UTF-16
(`str::encode_utf16`), splits each 16-bit unit into two big-endian bytes and
delivers one byte per `h_rd` call.  `h_se` holds the inbound units, decodes
them with `String::from_utf16`, strips NUL characters and parses with
`serde_json::from_str`. -/

/-- Model of `str::encode_utf16` for one character: code units, with a surrogate pair
for characters beyond the basic multilingual plane. -/
def utf16EncodeChar (c : Char) : List Nat :=
  if c.toNat < 0x10000 then [c.toNat]
  else [0xD800 + (c.toNat - 0x10000) / 0x400, 0xDC00 + (c.toNat - 0x10000) % 0x400]

def utf16Encode (s : List Char) : List Nat := s.flatMap utf16EncodeChar

/-- Model of `String::from_utf16`: fails (`Err`) on a lone surrogate. -/
def utf16Decode : List Nat → Option (List Char)
  | [] => some []
  | u :: rest =>
    if u < 0xD800 ∨ (0xE000 ≤ u ∧ u < 0x10000) then
      (utf16Decode rest).map (fun cs => Char.ofNat u :: cs)
    else if 0xD800 ≤ u ∧ u < 0xDC00 then
      match rest with
      | u2 :: rest2 =>
        if 0xDC00 ≤ u2 ∧ u2 < 0xE000 then
          (utf16Decode rest2).map (fun cs =>
            Char.ofNat (0x10000 + (u - 0xD800) * 0x400 + (u2 - 0xDC00)) :: cs)
        else none
      | [] => none
    else none

/-- The byte split in `send_event`: `(word >> 8) as u8` then `word as u8`,
big-endian, one `h_rd` call per byte. -/
def splitBytes (units : List Nat) : List Nat :=
  units.flatMap (fun w => [w / 256, w % 256])

/-- Modelled from the spec: the guest side of the channel is not part of this
repository; per the wire contract (§4.1/§6) it reassembles consecutive byte
pairs big-endian into 16-bit units, failing on an incomplete trailing pair. -/
def recombineBE : List Nat → Option (List Nat)
  | [] => some []
  | [_] => none
  | a :: b :: rest => (recombineBE rest).map (fun us => (a * 256 + b) :: us)

theorem utf16_roundtrip : ∀ s : List Char, utf16Decode (utf16Encode s) = some s := by
  intro s
  induction s with
  | nil => rfl
  | cons c s ih =>
    rcases char_valid_nat c with h | h
    · -- below the surrogate range
      have henc : utf16EncodeChar c = [c.toNat] := by
        simp [utf16EncodeChar]
        omega
      simp only [utf16Encode, List.flatMap_cons, henc, List.cons_append,
        List.nil_append]
      rw [show utf16Decode (c.toNat :: s.flatMap utf16EncodeChar) =
          (utf16Decode (s.flatMap utf16EncodeChar)).map
            (fun cs => Char.ofNat c.toNat :: cs) from by
        rw [utf16Decode.eq_def]
        simp only [if_pos (Or.inl h)]]
      rw [show s.flatMap utf16EncodeChar = utf16Encode s from rfl, ih]
      simp [Char.ofNat_toNat]
    · by_cases hb : c.toNat < 0x10000
      · -- basic multilingual plane above the surrogate range
        have henc : utf16EncodeChar c = [c.toNat] := by
          simp [utf16EncodeChar]
          omega
        simp only [utf16Encode, List.flatMap_cons, henc, List.cons_append,
          List.nil_append]
        rw [show utf16Decode (c.toNat :: s.flatMap utf16EncodeChar) =
            (utf16Decode (s.flatMap utf16EncodeChar)).map
              (fun cs => Char.ofNat c.toNat :: cs) from by
          rw [utf16Decode.eq_def]
          simp only [if_pos (Or.inr (by omega : 0xE000 ≤ c.toNat ∧ c.toNat < 0x10000))]]
        rw [show s.flatMap utf16EncodeChar = utf16Encode s from rfl, ih]
        simp [Char.ofNat_toNat]
      · -- surrogate pair
        have henc : utf16EncodeChar c =
            [0xD800 + (c.toNat - 0x10000) / 0x400,
             0xDC00 + (c.toNat - 0x10000) % 0x400] := by
          simp [utf16EncodeChar]
          omega
        have hv : c.toNat - 0x10000 < 0x100000 := by omega
        have hdiv : (c.toNat - 0x10000) / 0x400 < 0x400 := by omega
        have hmod : (c.toNat - 0x10000) % 0x400 < 0x400 := Nat.mod_lt _ (by omega)
        simp only [utf16Encode, List.flatMap_cons, henc, List.cons_append,
          List.nil_append]
        rw [show ∀ X, utf16Decode ((0xD800 + (c.toNat - 0x10000) / 0x400) ::
            (0xDC00 + (c.toNat - 0x10000) % 0x400) :: X) =
            (utf16Decode X).map (fun cs => Char.ofNat (0x10000 +
              ((0xD800 + (c.toNat - 0x10000) / 0x400) - 0xD800) * 0x400 +
              ((0xDC00 + (c.toNat - 0x10000) % 0x400) - 0xDC00)) :: cs) from by
          intro X
          rw [utf16Decode.eq_def]
          simp only []
          rw [if_neg (by omega), if_pos (by omega : 0xD800 ≤
            0xD800 + (c.toNat - 0x10000) / 0x400 ∧
            0xD800 + (c.toNat - 0x10000) / 0x400 < 0xDC00)]
          rw [if_pos (by omega : 0xDC00 ≤ 0xDC00 + (c.toNat - 0x10000) % 0x400 ∧
            0xDC00 + (c.toNat - 0x10000) % 0x400 < 0xE000)]]
        rw [show s.flatMap utf16EncodeChar = utf16Encode s from rfl, ih]
        have harith : 0x10000 + ((0xD800 + (c.toNat - 0x10000) / 0x400) - 0xD800) *
            0x400 + ((0xDC00 + (c.toNat - 0x10000) % 0x400) - 0xDC00) = c.toNat := by
          have := Nat.div_add_mod (c.toNat - 0x10000) 0x400
          omega
        rw [harith]
        simp [Char.ofNat_toNat]

theorem recombine_splitBytes : ∀ us : List Nat, recombineBE (splitBytes us) = some us := by
  intro us
  induction us with
  | nil => rfl
  | cons w us ih =>
    simp only [splitBytes, List.flatMap_cons, List.cons_append, List.nil_append]
    rw [show (w / 256) :: (w % 256) :: (us.flatMap fun w => [w / 256, w % 256]) =
        (w / 256) :: (w % 256) :: splitBytes us from rfl]
    simp only [recombineBE, ih]
    have : w / 256 * 256 + w % 256 = w := by
      have := Nat.div_add_mod w 256
      omega
    rw [this]
    rfl

/-! ## The codec round trip (claim C1) -/

/-- The JSON envelope `json!([event_type, data])` built by `send_event`. -/
def envelope (cmd : List Char) (v : Json) : Json :=
  .arr (.cons (.str cmd) (.cons v .nil))

/-- Model of `send_event` (main.rs lines 150-173): serialize the envelope, encode as
UTF-16 and split each 16-bit unit into two big-endian bytes; the resulting
list is the sequence of `h_rd` call arguments. -/
def send_event_bytes (cmd : List Char) (v : Json) : List Nat :=
  splitBytes (utf16Encode (Json.render (envelope cmd v)))

/-- The `utf8_string.replace("\0", "")` step of `h_se`. -/
def stripNulls (s : List Char) : List Char := s.filter (fun c => c ≠ '\x00')

/-- The decode side of the wire: recombine byte pairs (the guest side of the
contract), decode UTF-16 (`String::from_utf16`), strip NUL characters and
parse (`serde_json::from_str`), as the `h_se` handler does. -/
def decode_bytes (bytes : List Nat) : Option Json :=
  (recombineBE bytes).bind fun units =>
    (utf16Decode units).bind fun s =>
      from_str (stripNulls s)

/-- serde_json array access used by `Value` indexing. -/
def JArr.get : JArr → Nat → Option Json
  | .nil, _ => none
  | .cons v _, 0 => some v
  | .cons _ t, n + 1 => JArr.get t n

/-- serde_json `Value` indexing `v[i]`: the array element, or `Null` when
absent or not an array. -/
def Json.getIdx (v : Json) (i : Nat) : Json :=
  match v with
  | .arr items => (items.get i).getD .null
  | _ => .null

/-- Model of `Value::as_str`. -/
def Json.as_str : Json → Option (List Char)
  | .str s => some s
  | _ => none

/-- The envelope fields as `handle_receive` reads them:
`json_value[0].as_str()` and `&json_value[1]`. -/
def decode_envelope (bytes : List Nat) : Option (List Char × Json) :=
  (decode_bytes bytes).bind fun j =>
    ((j.getIdx 0).as_str).map fun cmd => (cmd, j.getIdx 1)

theorem stripNulls_render (v : Json) : stripNulls v.render = v.render := by
  unfold stripNulls
  rw [List.filter_eq_self]
  intro a ha
  simpa using Json.render_no_null v a ha

/-- C1. For every JSON-representable value `v` (floats excluded, see the
module comment) and command string `cmd`, decoding the encoding of the
envelope `[cmd, v]` — serialize to JSON text, encode as UTF-16, split each
16-bit unit into two big-endian bytes; then recombine units, decode UTF-16,
strip null characters, parse JSON — yields `Some((cmd, v))`. -/
theorem C1_codec_roundtrip (cmd : List Char) (v : Json) :
    decode_envelope (send_event_bytes cmd v) = some (cmd, v) := by
  unfold decode_envelope decode_bytes send_event_bytes
  rw [recombine_splitBytes, Option.some_bind, utf16_roundtrip, Option.some_bind,
    stripNulls_render, from_str_render]
  simp [Json.getIdx, JArr.get, Json.as_str, envelope]

/-! ## The raw HTTP server's response writing (src/nodehttp.rs) -/

/-- Upper-case hex digit, as Rust's `{:X}` formatting uses. -/
def hexDigitU (n : Nat) : Char :=
  if n < 10 then Char.ofNat (48 + n) else Char.ofNat (55 + n)

def hexUpperAux : Nat → Nat → List Char → List Char
  | 0, _, acc => acc
  | fuel + 1, n, acc =>
    if n = 0 then acc else hexUpperAux fuel (n / 16) (hexDigitU (n % 16) :: acc)

/-- Rust `{:X}` formatting of a natural number (no prefix, `0` for zero). -/
def hexUpper (n : Nat) : List Char :=
  if n = 0 then ['0'] else hexUpperAux (n + 1) n []

/-- The numeric reading of a hex digit string (most significant first); used
to state that the chunk size line really is the length in hexadecimal. -/
def hexNatOf (ds : List Char) : Nat :=
  ds.foldl (fun a c => a * 16 + (hexVal c).getD 0) 0

/-- The UTF-8 byte count of one character; Rust's `str::len` counts bytes. -/
def charUtf8Size (c : Char) : Nat :=
  if c.toNat < 0x80 then 1
  else if c.toNat < 0x800 then 2
  else if c.toNat < 0x10000 then 3
  else 4

def utf8Length (s : List Char) : Nat := (s.map charUtf8Size).sum

/-- Model of `Response::end` (nodehttp.rs lines 57-74): the exact bytes written for a
body, `{body_len:X}\r\n{body}\r\n0\r\n\r\n`, followed by a flush. -/
def Response.end_bytes (body : List Char) : List Char :=
  hexUpper (utf8Length body) ++ '\r' :: '\n' ::
    (body ++ '\r' :: '\n' :: '0' :: '\r' :: '\n' :: '\r' :: '\n' :: [])

theorem hexVal_hexDigitU {k : Nat} (h : k < 16) : hexVal (hexDigitU k) = some k := by
  interval_cases k <;> rfl

theorem hexUpperAux_spec :
    ∀ (fuel n : Nat) (acc : List Char), n ≤ fuel →
      ∃ ds, hexUpperAux fuel n acc = ds ++ acc ∧
        ∀ a, ds.foldl (fun a c => a * 16 + (hexVal c).getD 0) a =
          if n = 0 then a else a * 16 ^ ds.length + n := by
  intro fuel
  induction fuel with
  | zero =>
    intro n acc hn
    refine ⟨[], by simp [hexUpperAux], ?_⟩
    intro a
    have : n = 0 := by omega
    simp [this]
  | succ fuel ih =>
    intro n acc hn
    by_cases h0 : n = 0
    · exact ⟨[], by simp [hexUpperAux, h0], fun a => by simp [h0]⟩
    · have hlt : n / 16 < n := Nat.div_lt_self (Nat.pos_of_ne_zero h0) (by norm_num)
      have hdiv : n / 16 ≤ fuel := by omega
      have hm : n % 16 < 16 := Nat.mod_lt n (by omega)
      obtain ⟨ds', heq, hfold⟩ := ih (n / 16) (hexDigitU (n % 16) :: acc) hdiv
      refine ⟨ds' ++ [hexDigitU (n % 16)], ?_, ?_⟩
      · simp [hexUpperAux, h0, heq]
      · intro a
        rw [List.foldl_append, hfold a]
        by_cases hq : n / 16 = 0
        · have hds : ds' = [] := by
            have hz : hexUpperAux fuel (n / 16) (hexDigitU (n % 16) :: acc) =
                hexDigitU (n % 16) :: acc := by
              rw [hq]
              cases fuel <;> simp [hexUpperAux]
            have hlen := congrArg List.length (hz ▸ heq)
            simp at hlen
            exact hlen
          subst hds
          simp only [hq, List.nil_append, List.foldl_cons, List.foldl_nil,
            hexVal_hexDigitU hm, Option.getD_some, if_neg h0, List.length_cons,
            List.length_nil, pow_one, if_true, eq_self_iff_true]
          omega
        · simp only [if_neg hq, List.foldl_cons, List.foldl_nil,
            hexVal_hexDigitU hm, Option.getD_some, if_neg h0, List.length_append,
            List.length_cons, List.length_nil, pow_succ]
          rw [← Nat.mul_assoc]
          generalize a * 16 ^ ds'.length = Q
          omega

/-- The chunk size line really is the length in hexadecimal. -/
theorem hexNatOf_hexUpper (n : Nat) : hexNatOf (hexUpper n) = n := by
  by_cases h0 : n = 0
  · simp [hexUpper, h0, hexNatOf, hexVal]
  · obtain ⟨ds, heq, hfold⟩ := hexUpperAux_spec (n + 1) n [] (by omega)
    simp only [hexUpper, if_neg h0, heq, List.append_nil, hexNatOf]
    rw [hfold 0]
    simp [if_neg h0]

/-! ## Response registry and event dispatcher (src/main.rs)

The registry models `RESPONSE_MAP : HashMap<usize, Response>`; a live
connection is identified by an opaque token.  Observable behaviour (stream
writes, unconditional `println!`/`eprintln!` diagnostics, the server start)
is collected as a list of effects; level-gated `log(...)` calls are elided.
`Response::write_head` interpolates `Utc::now().to_rfc2822()`, so the date
string is a parameter of the model. -/

abbrev Registry := List (Nat × Nat)

def Registry.find : Registry → Nat → Option Nat
  | [], _ => none
  | (k, c) :: t, i => if k = i then some c else Registry.find t i

/-- Model of `HashMap::remove`: the map without the key (a `HashMap` holds at most one
entry per key). -/
def Registry.remove (r : Registry) (i : Nat) : Registry :=
  r.filter (fun e => e.1 ≠ i)

inductive Effect where
  | log : List Char → Effect
  | write : Nat → List Char → Effect
  | listen : Nat → Effect
  deriving DecidableEq

/-- Model of `Value::as_f64` restricted to the integer numbers of this model. -/
def Json.as_f64 : Json → Option Int
  | .num n => some n
  | _ => none

/-- The saturating `f64 as u16` cast applied to
`status_code.as_f64().unwrap_or(500f64) as u16` (and to the listen port). -/
def toU16Sat (i : Int) : Nat :=
  if i < 0 then 0 else min i.toNat 65535

/-- The saturating `f64 as usize` cast applied to
`id.as_f64().unwrap_or(0f64) as usize`. -/
def toUsizeSat (i : Int) : Nat :=
  if i < 0 then 0 else min i.toNat (2 ^ 64 - 1)

/-- Model of `map_to_iter` (main.rs lines 240-251): keep only the string-valued
entries of the header object. -/
def map_to_iter : JObj → List (List Char × List Char)
  | .nil => []
  | .cons k v t =>
    match v with
    | .str s => (k, s) :: map_to_iter t
    | _ => map_to_iter t

/-- Model of `Response::write_head` (nodehttp.rs lines 26-55): the exact header bytes,
parameterized by the date string. -/
def write_head_bytes (status : Nat) (date : List Char)
    (headers : List (List Char × List Char)) : List Char :=
  "HTTP/1.1 ".data ++ natToDecimal status ++ " OK\r\nDate: ".data ++ date ++
    "\r\nConnection: keep-alive\r\nKeep-Alive: timeout=5\r\nTransfer-Encoding: chunked\r\n".data ++
    headers.flatMap (fun kv => kv.1 ++ ':' :: ' ' :: kv.2 ++ '\r' :: '\n' :: []) ++
    '\r' :: '\n' :: []

/-- The `http.end` arm of `handle_receive` (main.rs lines 355-404): match the
payload `[id, status, headers, body]`; remove the id from the registry and,
when an entry was present, write the head and then the body — directly for a
string body, serialized for an object body; any other body type writes no
body bytes and only logs `Invalid body type`.  A missing entry, a payload of
the wrong shape, and a non-array payload are logged no-ops. -/
def handle_end (reg : Registry) (date : List Char) (payload : Json) :
    Registry × List Effect :=
  match payload with
  | .arr (.cons (.num id) (.cons (.num status)
      (.cons (.obj headers) (.cons body .nil)))) =>
    let index := toUsizeSat id
    match reg.find index with
    | some conn =>
      let reg' := reg.remove index
      let head := write_head_bytes (toU16Sat status) date (map_to_iter headers)
      match body with
      | .str s => (reg', [.write conn head, .write conn (Response.end_bytes s)])
      | .obj o => (reg', [.write conn head,
          .write conn (Response.end_bytes (Json.render (.obj o)))])
      | _ => (reg', [.write conn head, .log "Invalid body type".data])
    | none => (reg, [.log "Invalid response id".data])
  | .arr _ => (reg, [.log "Invalid http.end data".data])
  | _ => (reg, [.log "Expected an array.".data])

/-- Model of `handle_receive` (main.rs lines 254-415): dispatch on
`json_value[0].as_str()`.  The commented-out `http.writeHead` arm is dead
code, so that command reaches the catch-all `Unknown method` arm. -/
def handle_receive (reg : Registry) (date : List Char) (j : Json) :
    Registry × List Effect :=
  match (j.getIdx 0).as_str with
  | some t =>
    if t = "http.listen".data then
      match (j.getIdx 1).as_f64 with
      | some port => (reg, [.listen (toU16Sat port)])
      | none => (reg, [.log "Invalid port value".data])
    else if t = "http.end".data then handle_end reg date (j.getIdx 1)
    else (reg, [.log ("Unknown method `".data ++ t ++ "`".data)])
  | none => (reg, [.log "Invalid handle type".data])

/-! ## Connection handling (nodehttp.rs `handle_connection` and the request
handler closure of main.rs `handle_receive::listen`) -/

/-- Rust's `char::is_whitespace` (the Unicode White_Space property), which
`split_whitespace` splits on. -/
def isRustWs (c : Char) : Bool :=
  c.toNat = 0x09 || c.toNat = 0x0A || c.toNat = 0x0B || c.toNat = 0x0C ||
  c.toNat = 0x0D || c.toNat = 0x20 || c.toNat = 0x85 || c.toNat = 0xA0 ||
  c.toNat = 0x1680 || (0x2000 ≤ c.toNat && c.toNat ≤ 0x200A) ||
  c.toNat = 0x2028 || c.toNat = 0x2029 || c.toNat = 0x202F ||
  c.toNat = 0x205F || c.toNat = 0x3000

/-- One `split_whitespace` step (`parts.next().unwrap_or("")`): skip leading
whitespace, return the maximal non-whitespace run and the remaining input. -/
def nextToken : List Char → List Char × List Char
  | [] => ([], [])
  | c :: rest =>
    if isRustWs c then nextToken rest
    else (c :: rest.takeWhile (fun d => !(isRustWs d)),
          rest.dropWhile (fun d => !(isRustWs d)))

/-- The 512-byte read buffer of `handle_connection` (nodehttp.rs line 102),
zero-filled beyond the bytes read.  The model works on the decoded
characters; on the ASCII request lines at issue `from_utf8_lossy` is the
identity. -/
def connBuffer (input : List Char) : List Char :=
  input.take 512 ++ List.replicate (512 - input.length) '\x00'

/-- Model of `parts.next()` applied once: the method token. -/
def parsedMethod (input : List Char) : List Char := (nextToken (connBuffer input)).1

/-- Model of `parts.next()` applied twice: the path token. -/
def parsedPath (input : List Char) : List Char :=
  (nextToken (nextToken (connBuffer input)).2).1

/-- The literal list in the handler closure (main.rs lines 263-266). -/
def STD_METHODS : List (List Char) :=
  ["GET", "POST", "PUT", "DELETE", "HEAD", "OPTIONS", "CONNECT", "TRACE",
    "PATCH"].map String.data

/-- The `http.request` event payload `[{method, url}, {id}]`
(main.rs lines 270-278). -/
def requestEventData (method url : List Char) (id : Nat) : Json :=
  .arr (.cons (.obj (.cons "method".data (.str method)
      (.cons "url".data (.str url) .nil)))
    (.cons (.obj (.cons "id".data (.num (id : Int)) .nil)) .nil))

/-- What one accepted connection does, observably. -/
structure ConnOutcome where
  events : List (List Char × Json)
  inserts : List (Nat × Nat)
  writes : List (List Char)
  nextId : Nat

/-- Model of `handle_connection` (nodehttp.rs lines 101-118) composed with the request
handler closure (main.rs lines 260-300): parse the first two
whitespace-separated tokens of the zero-padded read buffer; for a standard
method, allocate the next id (`NEXT_ID.fetch_add(1)`), send the
`http.request` event and register the connection under the id; for any other
method token, log at verbose level and write an empty chunked body — no event
is sent, no id is allocated and no registry entry is created. -/
def handleConnection (nextId : Nat) (conn : Nat) (input : List Char) : ConnOutcome :=
  let method := parsedMethod input
  let url := parsedPath input
  if method ∈ STD_METHODS then
    { events := [("http.request".data, requestEventData method url nextId)]
      inserts := [(nextId, conn)]
      writes := []
      nextId := nextId + 1 }
  else
    { events := [], inserts := [], writes := [Response.end_bytes []]
      nextId := nextId }

/-- The `NEXT_ID` counter after a sequence of accepted requests. -/
def runNextId (n : Nat) (reqs : List (List Char)) : Nat :=
  reqs.foldl (fun id r => (handleConnection id 0 r).nextId) n

/-! ## The `h_se` host function (main.rs lines 66-87) -/

inductive HseAction where
  | silent : HseAction
  | dispatch : Json → HseAction
  | logRaw : List Char → HseAction

/-- One `h_se` call on the accumulation buffer: on a non-empty buffer, decode
UTF-16 (`String::from_utf16`); on success strip NULs and try to parse,
spawning the dispatch on success and printing the raw text on parse failure;
`data.clear()` runs at the end of the non-empty branch regardless.  Returns
the new buffer contents and the action taken. -/
def h_se (data : List Nat) : List Nat × HseAction :=
  if data.isEmpty then (data, .silent)
  else
    match utf16Decode data with
    | some s =>
      let clean := stripNulls s
      match from_str clean with
      | some j => ([], .dispatch j)
      | none => ([], .logRaw clean)
    | none => ([], .silent)

/-! ## Error dispositions and the lock trace (claims C8, C9) -/

inductive TaskOutcome where
  | completed : TaskOutcome
  | panicked : List Char → TaskOutcome
  deriving DecidableEq

/-- The spawned connection task body (nodehttp.rs lines 92-96): an `Err` from
`handle_connection` — a TCP read failure, or a response write failure
propagated out of the handler — reaches `todo!("{e}")`, which panics the
task with a `not yet implemented` message instead of logging the error. -/
def connTaskOutcome (r : Except (List Char) Unit) : TaskOutcome :=
  match r with
  | .ok _ => .completed
  | .error e => .panicked ("not yet implemented: ".data ++ e)

/-- The dispatch task spawned by `h_se` (main.rs lines 74-76):
`handle_receive(json_value).await.unwrap()` panics on `Err`; a
`TcpListener::bind` failure propagates (via `?` in `Server::listen` and the
`http.listen` arm) into exactly this `unwrap`. -/
def dispatchTaskOutcome (r : Except (List Char) Unit) : TaskOutcome :=
  match r with
  | .ok _ => .completed
  | .error e =>
    .panicked ("called `Result::unwrap()` on an `Err` value: ".data ++ e)

inductive EndStep where
  | lockRegistry : EndStep
  | removeId : EndStep
  | awaitWrite : EndStep
  | logError : EndStep
  | unlockRegistry : EndStep
  deriving DecidableEq

/-- The ordered lock/await events of the `http.end` arm (main.rs lines
355-404), read off the source: `RESPONSE_MAP.lock()` at line 363, the
`remove` at line 364, the awaited `write_head` (lines 367-372) and body
`end` (lines 377, 381) writes — or the `Invalid body type` / `Invalid
response id` logs — and the guard drop at the end of the enclosing match
arm, which is where a `std::sync::MutexGuard` is released. -/
def http_end_trace (idPresent : Bool) (body : Json) : List EndStep :=
  [.lockRegistry, .removeId] ++
    (if idPresent then
      [.awaitWrite] ++
        (match body with
         | .str _ => [.awaitWrite]
         | .obj _ => [.awaitWrite]
         | _ => [.logError])
    else [.logError]) ++ [.unlockRegistry]

/-- A body that is neither a string nor an object falls into the
`Invalid body type` arm of `http.end`. -/
def isInvalidBody : Json → Bool
  | .str _ => false
  | .obj _ => false
  | _ => true

/-! ## Registry helper lemmas -/

theorem find_remove_self (r : Registry) (i : Nat) :
    (Registry.remove r i).find i = none := by
  induction r with
  | nil => rfl
  | cons e t ih =>
    by_cases he : e.1 = i
    · simpa [Registry.remove, he] using ih
    · simpa [Registry.remove, Registry.find, he] using ih

theorem handle_end_found_fst (reg : Registry) (date : List Char)
    (id status : Int) (headers : JObj) (body : Json) (conn : Nat)
    (h : reg.find (toUsizeSat id) = some conn) :
    (handle_end reg date (.arr (.cons (.num id) (.cons (.num status)
        (.cons (.obj headers) (.cons body .nil)))))).1 =
      reg.remove (toUsizeSat id) := by
  cases body <;> simp [handle_end, h]

theorem handle_end_not_found (reg : Registry) (date : List Char)
    (id status : Int) (headers : JObj) (body : Json)
    (h : reg.find (toUsizeSat id) = none) :
    handle_end reg date (.arr (.cons (.num id) (.cons (.num status)
        (.cons (.obj headers) (.cons body .nil))))) =
      (reg, [.log "Invalid response id".data]) := by
  simp [handle_end, h]

/-! ## The claim theorems -/

/-- C2. For every accepted connection, a parsed method token outside the
standard-verb list produces no `http.request` event and no registry entry;
the request line `GET /x` produces exactly one `http.request` event whose
payload's first element is `{method: "GET", url: "/x"}` and exactly one new
registry entry. -/
theorem C2_method_filtering :
    (∀ (nextId conn : Nat) (input : List Char),
        parsedMethod input ∉ STD_METHODS →
        (handleConnection nextId conn input).events = [] ∧
        (handleConnection nextId conn input).inserts = []) ∧
    (∀ nextId conn : Nat,
        (handleConnection nextId conn "GET /x\r\n".data).events =
          [("http.request".data, requestEventData "GET".data "/x".data nextId)] ∧
        (handleConnection nextId conn "GET /x\r\n".data).inserts =
          [(nextId, conn)]) := by
  constructor
  · intro nid conn input h
    simp [handleConnection, h]
  · intro nid conn
    have hm : parsedMethod "GET /x\r\n".data = "GET".data := by decide
    have hp : parsedPath "GET /x\r\n".data = "/x".data := by decide
    have hmem : parsedMethod "GET /x\r\n".data ∈ STD_METHODS := by decide
    simp [handleConnection, hm, hp, hmem]
    rw [if_pos (show (['G', 'E', 'T'] : List Char) ∈ STD_METHODS from by decide)]
    exact ⟨rfl, rfl⟩

theorem C2_method_filtering_witness :
    parsedMethod "FOO /x\r\n".data ∉ STD_METHODS ∧
    ((handleConnection 0 0 "FOO /x\r\n".data).events = [] ∧
     (handleConnection 0 0 "FOO /x\r\n".data).inserts = []) :=
  ⟨by decide, C2_method_filtering.1 0 0 "FOO /x\r\n".data (by decide)⟩

/-- C3. The chunked response body written by `Response::end` is the
body's byte length in hexadecimal, CRLF, the body bytes, CRLF, then the
terminating zero chunk; the size line reads back as the byte length, and for
body `"hi"` the exact byte sequence is `2\r\nhi\r\n0\r\n\r\n`. -/
theorem C3_chunked_encoding :
    (∀ body : List Char,
        Response.end_bytes body =
          hexUpper (utf8Length body) ++ '\r' :: '\n' ::
            (body ++ '\r' :: '\n' :: '0' :: '\r' :: '\n' :: '\r' :: '\n' :: []) ∧
        hexNatOf (hexUpper (utf8Length body)) = utf8Length body) ∧
    Response.end_bytes "hi".data = "2\r\nhi\r\n0\r\n\r\n".data := by
  refine ⟨fun body => ⟨rfl, hexNatOf_hexUpper _⟩, by decide⟩

/-- The original C4 claim fails on the code: `FOO /x` is an accepted,
fully handled request, yet `NEXT_ID` is not incremented, because
`fetch_add` sits inside the standard-method branch only. -/
theorem C4_counterexample :
    (handleConnection 0 0 "FOO /x\r\n".data).nextId = 0 ∧
    (handleConnection 0 0 "GET /x\r\n".data).nextId = 1 := by
  constructor <;> decide

theorem handleConnection_nextId (id conn : Nat) (r : List Char) :
    (handleConnection id conn r).nextId =
      if parsedMethod r ∈ STD_METHODS then id + 1 else id := by
  simp only [handleConnection]
  split_ifs <;> rfl

/-- C4, amended. The id counter is incremented exactly once for every
accepted request whose parsed method is a standard HTTP verb, and is
unchanged for other accepted requests; it is never reset and never
decreases. -/
theorem C4_id_counter (n : Nat) (reqs : List (List Char)) :
    runNextId n reqs =
      n + reqs.countP (fun r => decide (parsedMethod r ∈ STD_METHODS)) ∧
    n ≤ runNextId n reqs := by
  have main : ∀ (reqs : List (List Char)) (n : Nat),
      runNextId n reqs =
        n + reqs.countP (fun r => decide (parsedMethod r ∈ STD_METHODS)) := by
    intro reqs
    induction reqs with
    | nil => intro n; simp [runNextId]
    | cons r reqs ih =>
      intro n
      simp only [runNextId, List.foldl_cons, List.countP_cons]
      rw [show List.foldl (fun id r => (handleConnection id 0 r).nextId)
          ((handleConnection n 0 r).nextId) reqs =
          runNextId ((handleConnection n 0 r).nextId) reqs from rfl]
      rw [ih, handleConnection_nextId]
      by_cases h : parsedMethod r ∈ STD_METHODS
      · simp [h]
        omega
      · simp [h]
  refine ⟨main reqs n, ?_⟩
  rw [main reqs n]
  omega

/-- C5. After every `h_se` call the inbound accumulation buffer is
empty, regardless of whether UTF-16 decoding or JSON parsing of its contents
succeeded. -/
theorem C5_buffer_cleared (data : List Nat) : (h_se data).1 = [] := by
  unfold h_se
  split_ifs with h
  · simpa [List.isEmpty_iff] using h
  · cases hd : utf16Decode data with
    | none => rfl
    | some s => cases hf : from_str (stripNulls s) <;> simp [hf]

/-- C6. Removal from the registry is at-most-once: after an `http.end`
whose id is present removes the entry (and the response is written), a
second `http.end` with the same payload finds no entry and is a logged
no-op leaving the registry, and every connection, unchanged. -/
theorem C6_at_most_once (reg : Registry) (date : List Char) (id status : Int)
    (headers : JObj) (body : Json) (conn : Nat)
    (h : reg.find (toUsizeSat id) = some conn) :
    ∀ payload, payload = Json.arr (.cons (.num id) (.cons (.num status)
        (.cons (.obj headers) (.cons body .nil)))) →
      (handle_end reg date payload).1.find (toUsizeSat id) = none ∧
      handle_end (handle_end reg date payload).1 date payload =
        ((handle_end reg date payload).1, [.log "Invalid response id".data]) := by
  intro payload hp
  subst hp
  have h1 := handle_end_found_fst reg date id status headers body conn h
  rw [h1]
  have h2 : (reg.remove (toUsizeSat id)).find (toUsizeSat id) = none :=
    find_remove_self reg (toUsizeSat id)
  exact ⟨h2, handle_end_not_found _ date id status headers body h2⟩

theorem C6_at_most_once_witness :
    Registry.find [(0, 7)] (toUsizeSat 0) = some 7 ∧
    ((handle_end [(0, 7)] [] (Json.arr (.cons (.num 0) (.cons (.num 200)
        (.cons (.obj .nil) (.cons (.str "hi".data) .nil)))))).1.find
          (toUsizeSat 0) = none ∧
     handle_end (handle_end [(0, 7)] [] (Json.arr (.cons (.num 0)
        (.cons (.num 200) (.cons (.obj .nil)
          (.cons (.str "hi".data) .nil)))))).1 []
        (Json.arr (.cons (.num 0) (.cons (.num 200) (.cons (.obj .nil)
          (.cons (.str "hi".data) .nil))))) =
       ((handle_end [(0, 7)] [] (Json.arr (.cons (.num 0) (.cons (.num 200)
          (.cons (.obj .nil) (.cons (.str "hi".data) .nil)))))).1,
        [.log "Invalid response id".data])) :=
  ⟨rfl, C6_at_most_once [(0, 7)] [] 0 200 .nil (.str "hi".data) 7 rfl _ rfl⟩

/-- The original C7 claim fails on the code: with id 0 registered,
dispatching `["http.writeHead", [0, 200, {}]]` writes nothing to the
connection and leaves the registry unchanged — the `http.writeHead` arm is
commented out, so the command reaches the catch-all `Unknown method` arm. -/
theorem C7_counterexample :
    handle_receive [(0, 7)] []
        (envelope "http.writeHead".data
          (.arr (.cons (.num 0) (.cons (.num 200) (.cons (.obj .nil) .nil))))) =
      ([(0, 7)], [.log "Unknown method `http.writeHead`".data]) := by
  decide

/-- C7, amended. Dispatching an `http.writeHead` command, whatever its
payload, is handled by the catch-all arm: it logs `Unknown method` and is a
no-op; no bytes are written and the registry is unchanged. -/
theorem C7_writeHead_unknown (reg : Registry) (date : List Char)
    (payload : Json) :
    handle_receive reg date (envelope "http.writeHead".data payload) =
      (reg, [.log "Unknown method `http.writeHead`".data]) := by
  simp [handle_receive, envelope, Json.getIdx, JArr.get, Json.as_str]

/-- C8. The claim says transport errors are logged and the connection or
binding abandoned without terminating the process; in the code the error
paths are `todo!("{e}")` (connection read/write failures, nodehttp.rs line
94) and `.unwrap()` (bind failures surfacing in the spawned dispatch task,
main.rs line 75), which panic the task with a placeholder message instead of
logging — explicit unimplemented error handling. -/
theorem C8_transport_error_panics :
    connTaskOutcome (.error "connection read failed".data) =
      .panicked "not yet implemented: connection read failed".data ∧
    dispatchTaskOutcome (.error "bind: address already in use".data) =
      .panicked
        "called `Result::unwrap()` on an `Err` value: bind: address already in use".data ∧
    ∀ e : List Char, connTaskOutcome (.error e) ≠ .completed := by
  refine ⟨rfl, rfl, ?_⟩
  intro e
  simp [connTaskOutcome]

/-- C9. The claim says the `http.end` handler releases the registry lock
before awaiting any network write; in the code the `RESPONSE_MAP` guard is
acquired before the awaited `write_head`/`end` calls and dropped only at the
end of the match arm: at the failing input (an `http.end` for a registered
id with a string body) an awaited write occurs strictly before the unlock. -/
theorem C9_lock_held_across_await :
    http_end_trace true (.str "hi".data) =
      [.lockRegistry, .removeId, .awaitWrite, .awaitWrite, .unlockRegistry] ∧
    EndStep.awaitWrite ∈ (http_end_trace true (.str "hi".data)).takeWhile
      (fun s => s ≠ EndStep.unlockRegistry) := by
  exact ⟨rfl, by decide⟩

/-- C10. For every `http.end` whose id is present but whose body is
neither a string nor an object, the status line and headers are still
written and the registry entry is removed, but no body bytes are written;
only `Invalid body type` is logged. -/
theorem C10_invalid_body (reg : Registry) (date : List Char) (id status : Int)
    (headers : JObj) (body : Json) (conn : Nat)
    (h : reg.find (toUsizeSat id) = some conn) (hb : isInvalidBody body = true) :
    handle_end reg date (.arr (.cons (.num id) (.cons (.num status)
        (.cons (.obj headers) (.cons body .nil))))) =
      (reg.remove (toUsizeSat id),
       [.write conn (write_head_bytes (toU16Sat status) date (map_to_iter headers)),
        .log "Invalid body type".data]) := by
  cases body <;> simp [isInvalidBody] at hb <;> simp [handle_end, h]

theorem C10_invalid_body_witness :
    (Registry.find [(0, 7)] (toUsizeSat 0) = some 7 ∧
      isInvalidBody (.num 3) = true) ∧
    handle_end [(0, 7)] [] (.arr (.cons (.num 0) (.cons (.num 200)
        (.cons (.obj .nil) (.cons (.num 3) .nil))))) =
      (Registry.remove [(0, 7)] (toUsizeSat 0),
       [.write 7 (write_head_bytes (toU16Sat 200) [] (map_to_iter .nil)),
        .log "Invalid body type".data]) :=
  ⟨⟨rfl, rfl⟩, C10_invalid_body [(0, 7)] [] 0 200 .nil (.num 3) 7 rfl rfl⟩

end Mocketd
